import Mathlib

/-
  Verification of the Run Validation and Lifecycle Engine of the
  uma-team-trials-trackmaster repository.

  The Python source is shallowly embedded: dictionaries become structures
  with optional fields, the fuzzy-matching library call is modelled as a
  maximum over an abstract similarity function, database tables become
  lists, and Python exceptions become an explicit error monad (Except).
-/

namespace Trackmaster

/-! ## Correction engine: trackmaster/core/validation.py -/

/-- Python exceptions that the embedded code can raise. -/
inductive PyError
  | typeError
  | keyError
deriving Repr, DecidableEq

/-- Source constant VALID_TEAMS from trackmaster/core/validation.py. -/
def VALID_TEAMS : List String := ["Sprint", "Mile", "Medium", "Long", "Dirt"]

/-- Python str.strip with no argument: removes whitespace from both ends
of the string. Implemented on the character list so that it evaluates by
kernel reduction. -/
def pyStrip (s : String) : String :=
  String.mk (((s.data.dropWhile Char.isWhitespace).reverse.dropWhile
    Char.isWhitespace).reverse)

/-- One OCR record, a Python dictionary with possibly missing keys.
The fields name and team may be absent (dict .get with a default is used
by the source); original_ocr_name is absent on input and written by the
correction when a fuzzy replacement happens. -/
structure UmaRecord where
  name : Option String
  team : Option String
  epithet : Option String
  score : Int
  original_ocr_name : Option String
deriving Repr, DecidableEq

/-- Models thefuzz.process.extractOne: the choice with the highest
similarity to the query (the first one among ties, scanning left to
right), together with that similarity, or none when the choice list is
empty (the Python function returns None in that case). -/
def extractStep (sim : String → String → Nat) (query : String)
    (acc : Option (String × Nat)) (c : String) : Option (String × Nat) :=
  match acc with
  | none => some (c, sim query c)
  | some (b, s) => if sim query c > s then some (c, sim query c) else some (b, s)

def extractOne (sim : String → String → Nat) (query : String)
    (choices : List String) : Option (String × Nat) :=
  choices.foldl (extractStep sim query) none

/-- Outcome of processing one record in the loop body of
_run_validation_sync: the updated record, whether it was counted as
low confidence, and whether this record set the was_auto_corrected flag. -/
structure StepResult where
  record : UmaRecord
  lowConf : Bool
  autoCorrected : Bool
deriving Repr, DecidableEq

/-- Swap detection, lines 96 to 107 of trackmaster/core/validation.py:
if the extracted name is a valid team label and the extracted team is
not, consult the fuzzy match of the team value against the vocabulary
and swap the two fields when its similarity exceeds 80. Returns the name
that flows into name resolution, the (possibly team-updated) record, and
whether a swap happened. Unpacking the None returned by extractOne on an
empty choice set raises a TypeError in Python, embedded as Except.error. -/
def swapDetect (sim : String → String → Nat) (valid_names : List String)
    (uma : UmaRecord) : Except PyError (String × UmaRecord × Bool) :=
  let extracted_name := pyStrip (uma.name.getD "UNKNOWN")
  let extracted_team := pyStrip (uma.team.getD "UNKNOWN")
  if extracted_name ∈ VALID_TEAMS ∧ extracted_team ∉ VALID_TEAMS then
    match extractOne sim extracted_team valid_names with
    | none => .error .typeError
    | some (_, swap_conf) =>
      if swap_conf > 80 then
        .ok (extracted_team, { uma with team := some extracted_name }, true)
      else
        .ok (extracted_name, uma, false)
  else
    .ok (extracted_name, uma, false)

/-- Name resolution, lines 109 to 124 of trackmaster/core/validation.py:
exact vocabulary hit is accepted, otherwise the best fuzzy match replaces
the name when its confidence reaches the threshold (keeping the original
under original_ocr_name), otherwise the record is counted low confidence. -/
def resolveName (sim : String → String → Nat) (valid_names : List String)
    (confidence_threshold : Nat) (name : String) (uma : UmaRecord)
    (swapped : Bool) : Except PyError StepResult :=
  if name ∈ valid_names then
    .ok ⟨{ uma with name := some name }, false, swapped⟩
  else
    match extractOne sim name valid_names with
    | none => .error .typeError
    | some (best_match, confidence) =>
      if confidence_threshold ≤ confidence then
        .ok ⟨{ uma with name := some best_match, original_ocr_name := some name },
             false, true⟩
      else
        .ok ⟨{ uma with name := some name }, true, swapped⟩

/-- The loop body of _run_validation_sync in trackmaster/core/validation.py,
for a single record: swap detection followed by name resolution. -/
def processUma (sim : String → String → Nat) (valid_names : List String)
    (confidence_threshold : Nat) (uma : UmaRecord) : Except PyError StepResult :=
  match swapDetect sim valid_names uma with
  | .error e => .error e
  | .ok (name, uma2, swapped) =>
    resolveName sim valid_names confidence_threshold name uma2 swapped

/-- Return value of _run_validation_sync. -/
structure ValidationResult where
  corrected_scores : List UmaRecord
  low_confidence_count : Nat
  was_auto_corrected : Bool
deriving Repr, DecidableEq

/-- The accumulating loop of _run_validation_sync: list of corrected
records, low confidence count, and the was_auto_corrected flag. -/
def runValidationAux (sim : String → String → Nat) (valid_names : List String)
    (confidence_threshold : Nat) :
    List UmaRecord → Except PyError (List UmaRecord × Nat × Bool)
  | [] => .ok ([], 0, false)
  | u :: rest =>
    match processUma sim valid_names confidence_threshold u with
    | .error e => .error e
    | .ok r =>
      match runValidationAux sim valid_names confidence_threshold rest with
      | .error e => .error e
      | .ok (recs, low, auto) =>
        .ok (r.record :: recs, (if r.lowConf then 1 else 0) + low,
             r.autoCorrected || auto)

/-- _run_validation_sync from trackmaster/core/validation.py. -/
def run_validation_sync (sim : String → String → Nat)
    (ocr_scores : List UmaRecord) (valid_names : List String)
    (confidence_threshold : Nat) : Except PyError ValidationResult :=
  match runValidationAux sim valid_names confidence_threshold ocr_scores with
  | .error e => .error e
  | .ok (recs, low, auto) => .ok ⟨recs, low, auto⟩

/-- A concrete similarity function used for concrete evaluations: 100 on
identical strings and 0 otherwise. The real scorer of thefuzz also gives
100 to a pair of identical strings. -/
def simExact (a b : String) : Nat := if a = b then 100 else 0

/-- The name that leaves swap detection and enters name resolution. -/
def swappedName (sim : String → String → Nat) (valid_names : List String)
    (uma : UmaRecord) : String :=
  match swapDetect sim valid_names uma with
  | .ok (name, _, _) => name
  | .error _ => pyStrip (uma.name.getD "UNKNOWN")

/-- Whether name resolution classifies a record as low confidence: its
post-swap name is not in the vocabulary and the best fuzzy match scores
below the threshold. -/
def isLowConfidence (sim : String → String → Nat) (valid_names : List String)
    (confidence_threshold : Nat) (uma : UmaRecord) : Bool :=
  let n := swappedName sim valid_names uma
  if n ∈ valid_names then false
  else
    match extractOne sim n valid_names with
    | none => false
    | some (_, confidence) => decide (confidence < confidence_threshold)

/-- Whether processing a record sets the was_auto_corrected flag, that
is, whether a swap or a fuzzy replacement happened on it. -/
def isAutoCorrectedRec (sim : String → String → Nat) (valid_names : List String)
    (confidence_threshold : Nat) (uma : UmaRecord) : Bool :=
  match processUma sim valid_names confidence_threshold uma with
  | .ok r => r.autoCorrected
  | .error _ => false

/-! ### Helper lemmas about the correction engine -/

lemma extractStep_some (sim : String → String → Nat) (query : String)
    (p : String × Nat) (c : String) :
    ∃ q, extractStep sim query (some p) c = some q := by
  obtain ⟨b, s⟩ := p
  unfold extractStep
  by_cases h : sim query c > s <;> simp [h]

lemma foldl_extractStep_some (sim : String → String → Nat) (query : String) :
    ∀ (cs : List String) (p : String × Nat),
      ∃ q, cs.foldl (extractStep sim query) (some p) = some q := by
  intro cs
  induction cs with
  | nil => exact fun p => ⟨p, rfl⟩
  | cons c cs ih =>
    intro p
    obtain ⟨q, hq⟩ := extractStep_some sim query p c
    simpa [List.foldl_cons, hq] using ih q

lemma extractOne_isSome (sim : String → String → Nat) (query : String)
    (cs : List String) (h : cs ≠ []) : ∃ p, extractOne sim query cs = some p := by
  cases cs with
  | nil => exact absurd rfl h
  | cons c cs =>
    unfold extractOne
    simpa [List.foldl_cons, extractStep] using foldl_extractStep_some sim query cs _

lemma extractOne_nil (sim : String → String → Nat) (query : String) :
    extractOne sim query [] = none := rfl

/-- With a nonempty vocabulary, swap detection succeeds and yields the
post-swap name, preserving the original_ocr_name field of the record. -/
lemma swapDetect_ok (sim : String → String → Nat) (valid_names : List String)
    (uma : UmaRecord) (hv : valid_names ≠ []) :
    ∃ uma2 swapped, swapDetect sim valid_names uma
        = .ok (swappedName sim valid_names uma, uma2, swapped) ∧
      uma2.original_ocr_name = uma.original_ocr_name := by
  have h : ∃ n uma2 swapped, swapDetect sim valid_names uma = .ok (n, uma2, swapped) ∧
      uma2.original_ocr_name = uma.original_ocr_name := by
    by_cases hc : pyStrip (uma.name.getD "UNKNOWN") ∈ VALID_TEAMS ∧
        pyStrip (uma.team.getD "UNKNOWN") ∉ VALID_TEAMS
    · obtain ⟨⟨b, s⟩, hp⟩ :=
        extractOne_isSome sim (pyStrip (uma.team.getD "UNKNOWN")) valid_names hv
      by_cases h80 : s > 80
      · refine ⟨pyStrip (uma.team.getD "UNKNOWN"),
          { uma with team := some (pyStrip (uma.name.getD "UNKNOWN")) }, true, ?_, rfl⟩
        simp [swapDetect, hc, hp, h80]
      · refine ⟨pyStrip (uma.name.getD "UNKNOWN"), uma, false, ?_, rfl⟩
        simp [swapDetect, hc, hp, h80]
    · refine ⟨pyStrip (uma.name.getD "UNKNOWN"), uma, false, ?_, rfl⟩
      simp [swapDetect, hc]
  obtain ⟨n, uma2, swapped, hsd, horig⟩ := h
  refine ⟨uma2, swapped, ?_, horig⟩
  have hn : swappedName sim valid_names uma = n := by
    unfold swappedName
    rw [hsd]
  rw [hn, hsd]

lemma resolveName_mem (sim : String → String → Nat) (valid_names : List String)
    (thr : Nat) (name : String) (uma : UmaRecord) (swapped : Bool)
    (h : name ∈ valid_names) :
    resolveName sim valid_names thr name uma swapped
      = .ok ⟨{ uma with name := some name }, false, swapped⟩ := by
  simp [resolveName, h]

lemma resolveName_fuzzy (sim : String → String → Nat) (valid_names : List String)
    (thr : Nat) (name : String) (uma : UmaRecord) (swapped : Bool)
    (b : String) (c : Nat) (h1 : name ∉ valid_names)
    (h2 : extractOne sim name valid_names = some (b, c)) (h3 : thr ≤ c) :
    resolveName sim valid_names thr name uma swapped
      = .ok ⟨{ uma with name := some b, original_ocr_name := some name },
             false, true⟩ := by
  simp [resolveName, h1, h2, h3]

lemma resolveName_low (sim : String → String → Nat) (valid_names : List String)
    (thr : Nat) (name : String) (uma : UmaRecord) (swapped : Bool)
    (b : String) (c : Nat) (h1 : name ∉ valid_names)
    (h2 : extractOne sim name valid_names = some (b, c)) (h3 : c < thr) :
    resolveName sim valid_names thr name uma swapped
      = .ok ⟨{ uma with name := some name }, true, swapped⟩ := by
  simp [resolveName, h1, h2, Nat.not_le.mpr h3]

lemma processUma_ok (sim : String → String → Nat) (valid_names : List String)
    (thr : Nat) (uma : UmaRecord) (hv : valid_names ≠ []) :
    ∃ r, processUma sim valid_names thr uma = .ok r := by
  obtain ⟨uma2, swapped, hsd, _⟩ := swapDetect_ok sim valid_names uma hv
  unfold processUma
  rw [hsd]
  by_cases hm : swappedName sim valid_names uma ∈ valid_names
  · exact ⟨_, resolveName_mem sim valid_names thr _ uma2 swapped hm⟩
  · obtain ⟨⟨b, c⟩, hp⟩ :=
      extractOne_isSome sim (swappedName sim valid_names uma) valid_names hv
    by_cases hthr : thr ≤ c
    · exact ⟨_, resolveName_fuzzy sim valid_names thr _ uma2 swapped b c hm hp hthr⟩
    · exact ⟨_, resolveName_low sim valid_names thr _ uma2 swapped b c hm hp
        (Nat.not_le.mp hthr)⟩

lemma processUma_lowConf (sim : String → String → Nat) (valid_names : List String)
    (thr : Nat) (uma : UmaRecord) (r : StepResult)
    (h : processUma sim valid_names thr uma = .ok r) :
    r.lowConf = isLowConfidence sim valid_names thr uma := by
  unfold processUma at h
  cases hsd : swapDetect sim valid_names uma with
  | error e => rw [hsd] at h; exact absurd h (by simp)
  | ok t =>
    obtain ⟨n, uma2, swapped⟩ := t
    rw [hsd] at h
    have hn : swappedName sim valid_names uma = n := by
      unfold swappedName
      rw [hsd]
    unfold isLowConfidence
    rw [hn]
    unfold resolveName at h
    by_cases hm : n ∈ valid_names
    · simp only [if_pos hm, Except.ok.injEq] at h
      rw [← h]
      simp [hm]
    · simp only [if_neg hm] at h
      cases hex : extractOne sim n valid_names with
      | none => rw [hex] at h; exact absurd h (by simp)
      | some p =>
        obtain ⟨b, c⟩ := p
        rw [hex] at h
        by_cases hthr : thr ≤ c
        · simp only [if_pos hthr, Except.ok.injEq] at h
          rw [← h]
          simp [hm, hex, Nat.not_lt.mpr hthr]
        · simp only [if_neg hthr, Except.ok.injEq] at h
          rw [← h]
          simp [hm, hex, Nat.lt_of_not_le hthr]

lemma runValidationAux_ok (sim : String → String → Nat) (valid_names : List String)
    (thr : Nat) (hv : valid_names ≠ []) (batch : List UmaRecord) :
    ∃ out, runValidationAux sim valid_names thr batch = .ok out := by
  induction batch with
  | nil => exact ⟨_, rfl⟩
  | cons u rest ih =>
    obtain ⟨r, hr⟩ := processUma_ok sim valid_names thr u hv
    obtain ⟨⟨recs, low, auto⟩, hrest⟩ := ih
    refine ⟨(r.record :: recs, (if r.lowConf then 1 else 0) + low,
      r.autoCorrected || auto), ?_⟩
    simp [runValidationAux, hr, hrest]

lemma runValidationAux_spec (sim : String → String → Nat)
    (valid_names : List String) (thr : Nat) :
    ∀ (batch : List UmaRecord) (recs : List UmaRecord) (low : Nat) (auto : Bool),
      runValidationAux sim valid_names thr batch = .ok (recs, low, auto) →
      recs.length = batch.length ∧
      low = batch.countP (fun u => isLowConfidence sim valid_names thr u) ∧
      auto = batch.any (fun u => isAutoCorrectedRec sim valid_names thr u) := by
  intro batch
  induction batch with
  | nil =>
    intro recs low auto h
    simp only [runValidationAux, Except.ok.injEq, Prod.mk.injEq] at h
    obtain ⟨h1, h2, h3⟩ := h
    simp [← h1, ← h2, ← h3]
  | cons u rest ih =>
    intro recs low auto h
    simp only [runValidationAux] at h
    cases hpu : processUma sim valid_names thr u with
    | error e => rw [hpu] at h; exact absurd h (by simp)
    | ok r =>
      rw [hpu] at h
      cases hrest : runValidationAux sim valid_names thr rest with
      | error e => rw [hrest] at h; exact absurd h (by simp)
      | ok out =>
        obtain ⟨recs2, low2, auto2⟩ := out
        rw [hrest] at h
        simp only [Except.ok.injEq, Prod.mk.injEq] at h
        obtain ⟨h1, h2, h3⟩ := h
        obtain ⟨ih1, ih2, ih3⟩ := ih recs2 low2 auto2 hrest
        refine ⟨?_, ?_, ?_⟩
        · rw [← h1]
          simp [ih1]
        · rw [← h2, ih2, List.countP_cons,
            ← processUma_lowConf sim valid_names thr u r hpu]
          cases r.lowConf <;> (simp; try omega)
        · rw [← h3, ih3, List.any_cons]
          have : isAutoCorrectedRec sim valid_names thr u = r.autoCorrected := by
            unfold isAutoCorrectedRec
            rw [hpu]
          rw [this]

lemma processUma_nil (sim : String → String → Nat) (thr : Nat) (u : UmaRecord) :
    processUma sim [] thr u = .error .typeError := by
  unfold processUma
  by_cases hc : pyStrip (u.name.getD "UNKNOWN") ∈ VALID_TEAMS ∧
      pyStrip (u.team.getD "UNKNOWN") ∉ VALID_TEAMS
  · simp [swapDetect, hc, extractOne_nil]
  · simp [swapDetect, hc, resolveName, extractOne_nil]

/-! ### Claim theorems about the correction engine -/

/-- Claim C7: for every batch of N raw records, the correction returns
exactly N corrected records, none dropped and none duplicated, regardless
of each record confidence classification; with a nonempty vocabulary the
correction always returns a result. -/
theorem correction_preserves_batch_length (sim : String → String → Nat)
    (vocab : List String) (thr : Nat) (batch : List UmaRecord) :
    (∀ res, run_validation_sync sim batch vocab thr = .ok res →
      res.corrected_scores.length = batch.length) ∧
    (vocab ≠ [] → ∃ res, run_validation_sync sim batch vocab thr = .ok res) := by
  constructor
  · intro res h
    unfold run_validation_sync at h
    cases haux : runValidationAux sim vocab thr batch with
    | error e => rw [haux] at h; exact absurd h (by simp)
    | ok out =>
      obtain ⟨recs, low, auto⟩ := out
      rw [haux] at h
      simp only [Except.ok.injEq] at h
      obtain ⟨l, -, -⟩ := runValidationAux_spec sim vocab thr batch recs low auto haux
      rw [← h]
      exact l
  · intro hv
    obtain ⟨⟨recs, low, auto⟩, haux⟩ := runValidationAux_ok sim vocab thr hv batch
    exact ⟨⟨recs, low, auto⟩, by simp [run_validation_sync, haux]⟩

/-- Witness for C7 at a concrete batch of one record. -/
theorem correction_preserves_batch_length_witness :
    (["Maruzensky"] : List String) ≠ [] ∧
    ∃ res, run_validation_sync simExact
        [⟨some "Maruzcnsky", some "Mile", none, 5, none⟩] ["Maruzensky"] 85
        = .ok res ∧
      res.corrected_scores.length = 1 := by
  refine ⟨by decide, ?_⟩
  obtain ⟨res, hres⟩ := (correction_preserves_batch_length simExact ["Maruzensky"] 85
    [⟨some "Maruzcnsky", some "Mile", none, 5, none⟩]).2 (by decide)
  exact ⟨res, hres, (correction_preserves_batch_length simExact ["Maruzensky"] 85
    [⟨some "Maruzcnsky", some "Mile", none, 5, none⟩]).1 res hres⟩

/-- Claim C6: after possible swap repair, a record whose name exactly
matches the vocabulary is accepted unchanged; otherwise a best fuzzy
match at or above the threshold replaces the name, retaining the original
and setting the auto-corrected flag; otherwise the unresolved name is
kept and the record counts toward low_confidence_count, which equals
exactly the number of records neither exactly nor confidently matched. -/
theorem name_resolution_spec (sim : String → String → Nat)
    (vocab : List String) (thr : Nat) :
    (∀ uma, swappedName sim vocab uma ∈ vocab →
      ∃ r, processUma sim vocab thr uma = .ok r ∧
        r.record.name = some (swappedName sim vocab uma) ∧
        r.record.original_ocr_name = uma.original_ocr_name ∧
        r.lowConf = false) ∧
    (∀ uma b c, swappedName sim vocab uma ∉ vocab →
      extractOne sim (swappedName sim vocab uma) vocab = some (b, c) → thr ≤ c →
      ∃ r, processUma sim vocab thr uma = .ok r ∧
        r.record.name = some b ∧
        r.record.original_ocr_name = some (swappedName sim vocab uma) ∧
        r.lowConf = false ∧ r.autoCorrected = true) ∧
    (∀ uma b c, swappedName sim vocab uma ∉ vocab →
      extractOne sim (swappedName sim vocab uma) vocab = some (b, c) → c < thr →
      ∃ r, processUma sim vocab thr uma = .ok r ∧
        r.record.name = some (swappedName sim vocab uma) ∧
        r.lowConf = true) ∧
    (∀ batch res, run_validation_sync sim batch vocab thr = .ok res →
      res.low_confidence_count
        = batch.countP (fun u => isLowConfidence sim vocab thr u)) := by
  refine ⟨?_, ?_, ?_, ?_⟩
  · intro uma hm
    obtain ⟨uma2, swapped, hsd, horig⟩ :=
      swapDetect_ok sim vocab uma (List.ne_nil_of_mem hm)
    refine ⟨⟨{ uma2 with name := some (swappedName sim vocab uma) }, false, swapped⟩,
      ?_, rfl, horig, rfl⟩
    unfold processUma
    rw [hsd]
    exact resolveName_mem sim vocab thr _ uma2 swapped hm
  · intro uma b c hm hex hthr
    have hv : vocab ≠ [] := by
      intro e
      rw [e, extractOne_nil] at hex
      exact absurd hex (by simp)
    obtain ⟨uma2, swapped, hsd, horig⟩ := swapDetect_ok sim vocab uma hv
    refine ⟨⟨{ uma2 with
                 name := some b,
                 original_ocr_name := some (swappedName sim vocab uma) },
               false, true⟩, ?_, rfl, rfl, rfl, rfl⟩
    unfold processUma
    rw [hsd]
    exact resolveName_fuzzy sim vocab thr _ uma2 swapped b c hm hex hthr
  · intro uma b c hm hex hthr
    have hv : vocab ≠ [] := by
      intro e
      rw [e, extractOne_nil] at hex
      exact absurd hex (by simp)
    obtain ⟨uma2, swapped, hsd, horig⟩ := swapDetect_ok sim vocab uma hv
    refine ⟨⟨{ uma2 with name := some (swappedName sim vocab uma) }, true, swapped⟩,
      ?_, rfl, rfl⟩
    unfold processUma
    rw [hsd]
    exact resolveName_low sim vocab thr _ uma2 swapped b c hm hex hthr
  · intro batch res h
    unfold run_validation_sync at h
    cases haux : runValidationAux sim vocab thr batch with
    | error e => rw [haux] at h; exact absurd h (by simp)
    | ok out =>
      obtain ⟨recs, low, auto⟩ := out
      rw [haux] at h
      simp only [Except.ok.injEq] at h
      obtain ⟨-, hcount, -⟩ := runValidationAux_spec sim vocab thr batch recs low auto haux
      rw [← h]
      exact hcount

/-- Witness for C6: a fuzzy correction at a concrete record, and the low
confidence count of a concrete two-record batch. -/
theorem name_resolution_spec_witness :
    (swappedName simExact ["Maruzensky"]
        ⟨some "Maruzensky", some "Mile", none, 5, none⟩ ∈ ["Maruzensky"]) ∧
    (∃ r, processUma simExact ["Maruzensky"] 85
        ⟨some "Maruzensky", some "Mile", none, 5, none⟩ = .ok r ∧
      r.record.name = some (swappedName simExact ["Maruzensky"]
        ⟨some "Maruzensky", some "Mile", none, 5, none⟩) ∧
      r.record.original_ocr_name = none ∧
      r.lowConf = false) ∧
    (∀ res, run_validation_sync simExact
        [⟨some "Maruzensky", some "Mile", none, 5, none⟩,
         ⟨some "Maruzcnsky", some "Mile", none, 7, none⟩] ["Maruzensky"] 85
        = .ok res →
      res.low_confidence_count = 1) := by
  refine ⟨by decide, (name_resolution_spec simExact ["Maruzensky"] 85).1
    ⟨some "Maruzensky", some "Mile", none, 5, none⟩ (by decide), ?_⟩
  intro res h
  rw [(name_resolution_spec simExact ["Maruzensky"] 85).2.2.2 _ res h]
  decide

/-- Claim C5: when the trimmed name is a valid team label, the trimmed
team is not, and the best fuzzy similarity of the team value against the
vocabulary exceeds 80, the two fields are swapped: the output team is the
original name, the auto-corrected flag is set, and when the team value is
itself in the vocabulary the output name is exactly the team value. -/
theorem swap_detection_corrects_transposition (sim : String → String → Nat)
    (vocab : List String) (thr : Nat) (uma : UmaRecord) (m : String) (c : Nat) :
    pyStrip (uma.name.getD "UNKNOWN") ∈ VALID_TEAMS →
    pyStrip (uma.team.getD "UNKNOWN") ∉ VALID_TEAMS →
    extractOne sim (pyStrip (uma.team.getD "UNKNOWN")) vocab = some (m, c) →
    80 < c →
    ∃ r, processUma sim vocab thr uma = .ok r ∧
      r.record.team = some (pyStrip (uma.name.getD "UNKNOWN")) ∧
      r.autoCorrected = true ∧
      (pyStrip (uma.team.getD "UNKNOWN") ∈ vocab →
        r.record.name = some (pyStrip (uma.team.getD "UNKNOWN"))) := by
  intro h1 h2 hex h80
  have hsd : swapDetect sim vocab uma
      = .ok (pyStrip (uma.team.getD "UNKNOWN"),
          { uma with team := some (pyStrip (uma.name.getD "UNKNOWN")) }, true) := by
    simp [swapDetect, h1, h2, hex, h80]
  have hpu : processUma sim vocab thr uma
      = resolveName sim vocab thr (pyStrip (uma.team.getD "UNKNOWN"))
          { uma with team := some (pyStrip (uma.name.getD "UNKNOWN")) } true := by
    unfold processUma
    rw [hsd]
  by_cases hm : pyStrip (uma.team.getD "UNKNOWN") ∈ vocab
  · rw [hpu, resolveName_mem sim vocab thr _ _ true hm]
    exact ⟨_, rfl, rfl, rfl, fun _ => rfl⟩
  · by_cases hthr : thr ≤ c
    · rw [hpu, resolveName_fuzzy sim vocab thr _ _ true m c hm hex hthr]
      exact ⟨_, rfl, rfl, rfl, fun hmem => absurd hmem hm⟩
    · rw [hpu, resolveName_low sim vocab thr _ _ true m c hm hex (Nat.not_le.mp hthr)]
      exact ⟨_, rfl, rfl, rfl, fun hmem => absurd hmem hm⟩

/-- Witness for C5: the record with name Sprint and team Special Week is
corrected to name Special Week, team Sprint. -/
theorem swap_detection_corrects_transposition_witness :
    (pyStrip "Sprint" ∈ VALID_TEAMS) ∧ (pyStrip "Special Week" ∉ VALID_TEAMS) ∧
    (80 < 100) ∧
    ∃ r, processUma simExact ["Special Week"] 85
        ⟨some "Sprint", some "Special Week", none, 100, none⟩ = .ok r ∧
      r.record.team = some (pyStrip "Sprint") ∧
      r.autoCorrected = true ∧
      (pyStrip "Special Week" ∈ ["Special Week"] →
        r.record.name = some (pyStrip "Special Week")) :=
  ⟨by decide, by decide, by decide,
    swap_detection_corrects_transposition simExact ["Special Week"] 85
      ⟨some "Sprint", some "Special Week", none, 100, none⟩ "Special Week" 100
      (by decide) (by decide) (by decide) (by decide)⟩

/-- Claim C4 counterexample: with an empty vocabulary the correction does
not classify the record as low confidence, it raises: unpacking the None
returned by the fuzzy extractor fails with a TypeError. -/
theorem empty_vocabulary_raises :
    run_validation_sync simExact
      [⟨some "Maruzcnsky", some "Mile", none, 5, none⟩] [] 85
      = .error .typeError := rfl

/-- Claim C4 as amended: with an empty vocabulary and at least one
record, the correction raises a TypeError instead of returning; with a
nonempty vocabulary a record missing the name or team key is processed
with the literal placeholder UNKNOWN and never throws, classified the
same way as a record carrying the explicit placeholder. -/
theorem empty_vocabulary_amended :
    (∀ (sim : String → String → Nat) (thr : Nat) (u : UmaRecord)
        (rest : List UmaRecord),
      run_validation_sync sim (u :: rest) [] thr = .error .typeError) ∧
    (∀ (sim : String → String → Nat) (vocab : List String) (thr : Nat)
        (epi : Option String) (sc : Int) (orig : Option String), vocab ≠ [] →
      ∃ r1 r2, processUma sim vocab thr ⟨none, none, epi, sc, orig⟩ = .ok r1 ∧
        processUma sim vocab thr
          ⟨some "UNKNOWN", some "UNKNOWN", epi, sc, orig⟩ = .ok r2 ∧
        r1.record.name = r2.record.name ∧ r1.lowConf = r2.lowConf ∧
        r1.autoCorrected = r2.autoCorrected) := by
  constructor
  · intro sim thr u rest
    simp [run_validation_sync, runValidationAux, processUma_nil]
  · intro sim vocab thr epi sc orig hv
    have hU : pyStrip "UNKNOWN" = "UNKNOWN" := by decide
    have hmem : "UNKNOWN" ∉ VALID_TEAMS := by decide
    have hsd1 : swapDetect sim vocab ⟨none, none, epi, sc, orig⟩
        = .ok ("UNKNOWN", ⟨none, none, epi, sc, orig⟩, false) := by
      simp [swapDetect, Option.getD, hU, hmem]
    have hsd2 : swapDetect sim vocab ⟨some "UNKNOWN", some "UNKNOWN", epi, sc, orig⟩
        = .ok ("UNKNOWN", ⟨some "UNKNOWN", some "UNKNOWN", epi, sc, orig⟩, false) := by
      simp [swapDetect, Option.getD, hU, hmem]
    have hp1 : processUma sim vocab thr ⟨none, none, epi, sc, orig⟩
        = resolveName sim vocab thr "UNKNOWN" ⟨none, none, epi, sc, orig⟩ false := by
      unfold processUma
      rw [hsd1]
    have hp2 : processUma sim vocab thr ⟨some "UNKNOWN", some "UNKNOWN", epi, sc, orig⟩
        = resolveName sim vocab thr "UNKNOWN"
            ⟨some "UNKNOWN", some "UNKNOWN", epi, sc, orig⟩ false := by
      unfold processUma
      rw [hsd2]
    by_cases hm : "UNKNOWN" ∈ vocab
    · refine ⟨⟨⟨some "UNKNOWN", none, epi, sc, orig⟩, false, false⟩,
        ⟨⟨some "UNKNOWN", some "UNKNOWN", epi, sc, orig⟩, false, false⟩,
        ?_, ?_, rfl, rfl, rfl⟩
      · rw [hp1]
        exact resolveName_mem sim vocab thr "UNKNOWN" _ false hm
      · rw [hp2]
        exact resolveName_mem sim vocab thr "UNKNOWN" _ false hm
    · obtain ⟨⟨b, c⟩, hex⟩ := extractOne_isSome sim "UNKNOWN" vocab hv
      by_cases hthr : thr ≤ c
      · refine ⟨⟨⟨some b, none, epi, sc, some "UNKNOWN"⟩, false, true⟩,
          ⟨⟨some b, some "UNKNOWN", epi, sc, some "UNKNOWN"⟩, false, true⟩,
          ?_, ?_, rfl, rfl, rfl⟩
        · rw [hp1]
          exact resolveName_fuzzy sim vocab thr "UNKNOWN" _ false b c hm hex hthr
        · rw [hp2]
          exact resolveName_fuzzy sim vocab thr "UNKNOWN" _ false b c hm hex hthr
      · refine ⟨⟨⟨some "UNKNOWN", none, epi, sc, orig⟩, true, false⟩,
          ⟨⟨some "UNKNOWN", some "UNKNOWN", epi, sc, orig⟩, true, false⟩,
          ?_, ?_, rfl, rfl, rfl⟩
        · rw [hp1]
          exact resolveName_low sim vocab thr "UNKNOWN" _ false b c hm hex
            (Nat.not_le.mp hthr)
        · rw [hp2]
          exact resolveName_low sim vocab thr "UNKNOWN" _ false b c hm hex
            (Nat.not_le.mp hthr)

/-- Witness for the amended C4 at concrete inputs. -/
theorem empty_vocabulary_amended_witness :
    run_validation_sync simExact
      [⟨some "Gold Ship", none, none, 3, none⟩] [] 85 = .error .typeError ∧
    ((["Maruzensky"] : List String) ≠ [] ∧
      ∃ r1 r2, processUma simExact ["Maruzensky"] 85
          ⟨none, none, none, 3, none⟩ = .ok r1 ∧
        processUma simExact ["Maruzensky"] 85
          ⟨some "UNKNOWN", some "UNKNOWN", none, 3, none⟩ = .ok r2 ∧
        r1.record.name = r2.record.name ∧ r1.lowConf = r2.lowConf ∧
        r1.autoCorrected = r2.autoCorrected) :=
  ⟨empty_vocabulary_amended.1 simExact 85 ⟨some "Gold Ship", none, none, 3, none⟩ [],
   by decide,
   empty_vocabulary_amended.2 simExact ["Maruzensky"] 85 none 3 none (by decide)⟩

/-! ## Period key derivation: trackmaster/core/utils.py -/

/-- Source constant: the game resets on Monday (0). -/
def GAME_RESET_DAY_OF_WEEK : Int := 0

/-- Source constant: the game resets at 09:00 UTC. -/
def GAME_RESET_HOUR_UTC : Nat := 9

/-- A Python datetime reduced to what get_current_season_id consumes:
the date, as a count of days since 1970-01-01, and the hour of day. -/
structure PyDateTime where
  days : Int
  hour : Nat
deriving Repr, DecidableEq

/-- Python date.weekday(): Monday is 0 and Sunday is 6. Day 0 of the
count, 1970-01-01, was a Thursday, weekday 3. -/
def pyWeekday (days : Int) : Int := (days + 3) % 7

/-- Day count since 1970-01-01 of the civil date y-m-d in the proleptic
Gregorian calendar, the calendar of Python datetime.date. -/
def daysFromCivil (y m d : Int) : Int :=
  let y2 := y - (if m ≤ 2 then 1 else 0)
  let era := y2.ediv 400
  let yoe := y2 - era * 400
  let doy := (153 * (m + (if m > 2 then -3 else 9)) + 2).ediv 5 + d - 1
  let doe := yoe * 365 + yoe.ediv 4 - yoe.ediv 100 + doy
  era * 146097 + doe - 719468

/-- Civil date (year, month, day) of a day count since 1970-01-01. -/
def civilFromDays (z0 : Int) : Int × Int × Int :=
  let z := z0 + 719468
  let era := z.ediv 146097
  let doe := z - era * 146097
  let yoe := (doe - doe.ediv 1460 + doe.ediv 36524 - doe.ediv 146096).ediv 365
  let y := yoe + era * 400
  let doy := doe - (365 * yoe + yoe.ediv 4 - yoe.ediv 100)
  let mp := (5 * doy + 2).ediv 153
  let d := doy - (153 * mp + 2).ediv 5 + 1
  let m := mp + (if mp < 10 then 3 else -9)
  (y + (if m ≤ 2 then 1 else 0), m, d)

/-- Left-pads the decimal form of n with zeros to width 2, as the %W
directive of strftime does. -/
def pad2 (n : Int) : String :=
  let s := toString n
  if s.length < 2 then "0" ++ s else s

/-- strftime("%Y-W%W") of the date z days after 1970-01-01: the year and
the week of the year, counting weeks that start on Monday, with the days
before the first Monday of the year in week 00. -/
def formatSeason (z : Int) : String :=
  let y := (civilFromDays z).1
  let yday := z - daysFromCivil y 1 1
  let w := (yday + 7 - pyWeekday z).ediv 7
  toString y ++ "-W" ++ pad2 w

/-- get_current_season_id from trackmaster/core/utils.py: the run week
label of the most recently completed weekly reset. -/
def get_current_season_id (timestamp : PyDateTime) : String :=
  let days_since_reset := (pyWeekday timestamp.days - GAME_RESET_DAY_OF_WEEK) % 7
  if days_since_reset = 0 ∧ timestamp.hour < GAME_RESET_HOUR_UTC then
    formatSeason (timestamp.days - 7)
  else
    formatSeason (timestamp.days - days_since_reset)

/-- Claim C8: the period key derivation is a pure function of the
timestamp, returning the year week string of a reset day date at most
seven days back; for a timestamp on the reset day but before the reset
hour, the returned key is the one computed from the date seven days
earlier, the key of the previous period. -/
theorem period_key_previous_period (ts : PyDateTime) :
    (∃ r, get_current_season_id ts = formatSeason r ∧
      pyWeekday r = GAME_RESET_DAY_OF_WEEK ∧ r ≤ ts.days ∧ ts.days - r ≤ 7) ∧
    (pyWeekday ts.days = GAME_RESET_DAY_OF_WEEK → ts.hour < GAME_RESET_HOUR_UTC →
      get_current_season_id ts = formatSeason (ts.days - 7) ∧
      get_current_season_id ts
        = get_current_season_id ⟨ts.days - 7, GAME_RESET_HOUR_UTC⟩) := by
  constructor
  · simp only [get_current_season_id]
    split_ifs with hc
    · obtain ⟨h0, -⟩ := hc
      refine ⟨ts.days - 7, rfl, ?_, by omega, by omega⟩
      unfold pyWeekday GAME_RESET_DAY_OF_WEEK at h0 ⊢
      omega
    · refine ⟨ts.days - (pyWeekday ts.days - GAME_RESET_DAY_OF_WEEK) % 7, rfl,
        ?_, ?_, ?_⟩ <;>
        (unfold pyWeekday GAME_RESET_DAY_OF_WEEK; omega)
  · intro hw hh
    have hzero : (pyWeekday ts.days - GAME_RESET_DAY_OF_WEEK) % 7 = 0 := by
      rw [hw]
      decide
    have hfirst : get_current_season_id ts = formatSeason (ts.days - 7) := by
      simp only [get_current_season_id]
      rw [if_pos ⟨hzero, hh⟩]
    refine ⟨hfirst, ?_⟩
    rw [hfirst]
    simp only [get_current_season_id]
    have h2 : (pyWeekday (ts.days - 7) - GAME_RESET_DAY_OF_WEEK) % 7 = 0 := by
      unfold pyWeekday GAME_RESET_DAY_OF_WEEK at hw ⊢
      omega
    rw [if_neg]
    · rw [h2]
      norm_num
    · unfold GAME_RESET_HOUR_UTC
      simp

/-- Witness for C8: 1970-01-05 (day 4, a Monday) at 08:00 belongs to the
previous period, the week of 1969-12-29. -/
theorem period_key_previous_period_witness :
    pyWeekday 4 = GAME_RESET_DAY_OF_WEEK ∧ (8 : Nat) < GAME_RESET_HOUR_UTC ∧
    (get_current_season_id ⟨4, 8⟩ = formatSeason (4 - 7) ∧
      get_current_season_id ⟨4, 8⟩
        = get_current_season_id ⟨(4 : Int) - 7, GAME_RESET_HOUR_UTC⟩) ∧
    get_current_season_id ⟨4, 8⟩ = "1969-W52" :=
  ⟨by decide, by decide,
   (period_key_previous_period ⟨4, 8⟩).2 (by decide) (by decide), by decide⟩

/-! ## Run repository: trackmaster/core/database.py -/

/-- A row of the team_trial_runs table. -/
structure RunRow where
  event_id : String
  discord_user_id : Int
  roster_id : Int
  discord_user_name : String
  run_date : Int
  run_week : String
  status : String
deriving Repr, DecidableEq

/-- A row of the uma_scores table. -/
structure ScoreRow where
  event_id : String
  uma_name : String
  epithet : Option String
  team : String
  score : Int
deriving Repr, DecidableEq

/-- The database state: the run header table, the score row table and
the weekly_sequences counter table of (week_id, current_val) rows. -/
structure DBState where
  runs : List RunRow
  scores : List ScoreRow
  seqs : List (String × Nat)
deriving Repr, DecidableEq

/-- Value of the counter row of a week, when one exists. -/
def seqVal : List (String × Nat) → String → Option Nat
  | [], _ => none
  | p :: rest, week => if p.1 = week then some p.2 else seqVal rest week

/-- INSERT INTO weekly_sequences (week_id, current_val) VALUES (week, 0)
ON CONFLICT (week_id) DO NOTHING. -/
def weeklySeqUpsert (seqs : List (String × Nat)) (week : String) :
    List (String × Nat) :=
  if (seqVal seqs week).isSome then seqs else seqs ++ [(week, 0)]

/-- UPDATE weekly_sequences SET current_val = current_val + 1
WHERE week_id = week RETURNING current_val: the returned scalar (none
when no row matched) and the updated table. -/
def weeklySeqIncrement (seqs : List (String × Nat)) (week : String) :
    Option Nat × List (String × Nat) :=
  match seqVal seqs week with
  | none => (none, seqs)
  | some v =>
    (some (v + 1), seqs.map (fun p => if p.1 = week then (p.1, v + 1) else p))

/-- Python format {n:03d}: decimal digits left-padded with zeros to a
minimum width of 3. -/
def pad3 (n : Nat) : String :=
  let s := toString n
  String.mk (List.replicate (3 - s.length) '0') ++ s

/-- The score row values built by create_pending_run: the subscripts
s[name] and s[team] raise a KeyError when the key is absent, while
s.get(epithet) tolerates a missing key. -/
def buildScoreRows (event_id : String) :
    List UmaRecord → Except PyError (List ScoreRow)
  | [] => .ok []
  | s :: rest =>
    match s.name, s.team with
    | some n, some t =>
      match buildScoreRows event_id rest with
      | .ok rs => .ok (⟨event_id, n, s.epithet, t, s.score⟩ :: rs)
      | .error e => .error e
    | _, _ => .error .keyError

/-- create_pending_run from trackmaster/core/database.py: derive the run
week from the current time, upsert then atomically increment the weekly
sequence counter, compose the event id, and insert the run header with
status pending_validation together with all score rows, all in a single
transaction. A failing step rolls the transaction back and re-raises:
the error result carries no state, so the caller keeps the original
state. A None scalar from the increment would make the {:03d} format
raise a TypeError. -/
def create_pending_run (st : DBState) (user_id : Int) (user_name : String)
    (roster_id : Int) (scores : List UmaRecord) (now : PyDateTime) :
    Except PyError (String × DBState) :=
  let week_str := get_current_season_id now
  let seqs1 := weeklySeqUpsert st.seqs week_str
  match weeklySeqIncrement seqs1 week_str with
  | (none, _) => .error .typeError
  | (some next_id, seqs2) =>
    let event_id := week_str ++ "-EVT-" ++ pad3 next_id
    match buildScoreRows event_id scores with
    | .error e => .error e
    | .ok scoreRows =>
      .ok (event_id,
        { runs := st.runs ++
            [⟨event_id, user_id, roster_id, user_name, now.days, week_str,
              "pending_validation"⟩],
          scores := st.scores ++ scoreRows,
          seqs := seqs2 })

/-- set_run_status from trackmaster/core/database.py: the status
rejected deletes the run header, and its score rows go with it through
the ON DELETE CASCADE of the schema; any other status updates the status
column of the matching headers. The function returns True whether or not
any row matched; only a storage exception, which is not modelled here,
produces False. -/
def set_run_status (st : DBState) (event_id status : String) : Bool × DBState :=
  if status = "rejected" then
    (true, { st with
      runs := st.runs.filter (fun r => !(r.event_id == event_id)),
      scores := st.scores.filter (fun s => !(s.event_id == event_id)) })
  else
    (true, { st with
      runs := st.runs.map (fun r =>
        if r.event_id == event_id then { r with status := status } else r) })

/-- update_single_score from trackmaster/core/database.py: rewrites the
score rows matching (event_id, uma_name) and reports whether the UPDATE
matched at least one row (rowcount greater than 0). -/
def update_single_score (st : DBState) (event_id original_name new_name : String)
    (new_epithet : Option String) (new_team : String) (new_score : Int) :
    Bool × DBState :=
  let matched := st.scores.countP
    (fun s => s.event_id == event_id && s.uma_name == original_name)
  (decide (0 < matched),
   { st with scores := st.scores.map (fun s =>
      if s.event_id == event_id && s.uma_name == original_name then
        { s with uma_name := new_name, epithet := new_epithet, team := new_team,
                 score := new_score }
      else s) })

/-- n successive allocations of the sequence step of create_pending_run
(upsert then atomic increment, lines 90 to 110) for one week: the list
of returned values and the final counter table. -/
def allocRun (week : String) : Nat → List (String × Nat) →
    List Nat × List (String × Nat)
  | 0, seqs => ([], seqs)
  | n + 1, seqs =>
    match weeklySeqIncrement (weeklySeqUpsert seqs week) week with
    | (some v, s2) =>
      let r := allocRun week n s2
      (v :: r.1, r.2)
    | (none, s2) => ([], s2)

/-! ### Helper lemmas about the repository -/

lemma seqVal_append_fresh (seqs : List (String × Nat)) (week : String)
    (h : seqVal seqs week = none) :
    seqVal (seqs ++ [(week, 0)]) week = some 0 := by
  induction seqs with
  | nil => simp [seqVal]
  | cons p rest ih =>
    simp only [seqVal, List.cons_append] at h ⊢
    split at h
    · exact absurd h (by simp)
    · rename_i hne
      rw [if_neg hne]
      exact ih h

lemma seqVal_update (seqs : List (String × Nat)) (week : String) (x : Nat) :
    seqVal (seqs.map (fun p => if p.1 = week then (p.1, x) else p)) week
      = (seqVal seqs week).map (fun _ => x) := by
  induction seqs with
  | nil => simp [seqVal]
  | cons p rest ih =>
    by_cases h : p.1 = week
    · simp [seqVal, h]
    · simp [seqVal, h, ih]

lemma increment_of_some (seqs : List (String × Nat)) (week : String) (c : Nat)
    (h : seqVal seqs week = some c) :
    ∃ seqs2, weeklySeqIncrement seqs week = (some (c + 1), seqs2) ∧
      seqVal seqs2 week = some (c + 1) := by
  unfold weeklySeqIncrement
  rw [h]
  refine ⟨_, rfl, ?_⟩
  rw [seqVal_update, h]
  rfl

lemma allocRun_of_some (week : String) :
    ∀ (n : Nat) (seqs : List (String × Nat)) (c : Nat),
      seqVal seqs week = some c →
      (allocRun week n seqs).1 = List.range' (c + 1) n := by
  intro n
  induction n with
  | zero => intro seqs c h; rfl
  | succ m ih =>
    intro seqs c h
    have hup : weeklySeqUpsert seqs week = seqs := by
      simp [weeklySeqUpsert, h]
    obtain ⟨s2, hinc, hs2⟩ := increment_of_some seqs week c h
    simp only [allocRun, hup, hinc]
    rw [ih s2 (c + 1) hs2]
    rfl

lemma allocRun_fresh (week : String) (n : Nat) (seqs : List (String × Nat))
    (h : seqVal seqs week = none) :
    (allocRun week n seqs).1 = List.range' 1 n := by
  cases n with
  | zero => rfl
  | succ m =>
    have hup : seqVal (weeklySeqUpsert seqs week) week = some 0 := by
      unfold weeklySeqUpsert
      rw [h]
      simpa using seqVal_append_fresh seqs week h
    obtain ⟨s2, hinc, hs2⟩ := increment_of_some _ week 0 hup
    simp only [allocRun, hinc]
    rw [allocRun_of_some week m s2 1 hs2]
    rfl

/-! ### Claim theorems about the repository -/

/-- Claim C3: the weekly sequence counter is created initialized to 0 on
first use and then atomically incremented, so n successive allocations
for a fresh period return exactly the distinct gapless values 1..n; and
every run id produced by create_pending_run is the period key followed
by -EVT- and the 3-digit zero-padded sequence value returned by the
increment. Each allocation is a single atomic read-modify-write of the
store, so any interleaving of concurrent calls is one of the sequential
executions described here. -/
theorem sequence_allocator_gapless (week : String) (n : Nat)
    (seqs : List (String × Nat)) (h : seqVal seqs week = none) :
    seqVal (weeklySeqUpsert seqs week) week = some 0 ∧
    (allocRun week n seqs).1 = List.range' 1 n ∧
    (allocRun week n seqs).1.Nodup ∧
    (∀ k, k ∈ (allocRun week n seqs).1 ↔ 1 ≤ k ∧ k ≤ n) ∧
    (∀ (st : DBState) (uid : Int) (uname : String) (rid : Int)
        (scores : List UmaRecord) (now : PyDateTime) (eid : String)
        (st2 : DBState),
      create_pending_run st uid uname rid scores now = .ok (eid, st2) →
      ∃ k, (weeklySeqIncrement (weeklySeqUpsert st.seqs (get_current_season_id now))
              (get_current_season_id now)).1 = some k ∧
        eid = get_current_season_id now ++ "-EVT-" ++ pad3 k) := by
  have halloc := allocRun_fresh week n seqs h
  refine ⟨?_, halloc, ?_, ?_, ?_⟩
  · unfold weeklySeqUpsert
    rw [h]
    simpa using seqVal_append_fresh seqs week h
  · rw [halloc]
    exact List.nodup_range' 1 n
  · intro k
    rw [halloc, List.mem_range'_1]
    omega
  · intro st uid uname rid scores now eid st2 hcr
    simp only [create_pending_run] at hcr
    cases ho : weeklySeqIncrement
        (weeklySeqUpsert st.seqs (get_current_season_id now))
        (get_current_season_id now) with
    | mk o s2 =>
      rw [ho] at hcr
      cases o with
      | none =>
        dsimp only at hcr
        exact absurd hcr (by simp)
      | some k =>
        dsimp only at hcr
        cases hbs : buildScoreRows
            (get_current_season_id now ++ "-EVT-" ++ pad3 k) scores with
        | error e => rw [hbs] at hcr; exact absurd hcr (by simp)
        | ok rows =>
          rw [hbs] at hcr
          simp only [Except.ok.injEq, Prod.mk.injEq] at hcr
          exact ⟨k, rfl, hcr.1.symm⟩

/-- Witness for C3: three allocations in the fresh week 1970-W01 return
1, 2, 3, and a concrete create_pending_run mints 1970-W01-EVT-001. -/
theorem sequence_allocator_gapless_witness :
    seqVal [] "1970-W01" = none ∧
    (allocRun "1970-W01" 3 []).1 = [1, 2, 3] ∧
    (∃ k, (weeklySeqIncrement
        (weeklySeqUpsert ([] : List (String × Nat)) (get_current_season_id ⟨4, 10⟩))
        (get_current_season_id ⟨4, 10⟩)).1 = some k ∧
      "1970-W01-EVT-001" = get_current_season_id ⟨4, 10⟩ ++ "-EVT-" ++ pad3 k) := by
  refine ⟨rfl, ?_, ?_⟩
  · rw [(sequence_allocator_gapless "1970-W01" 3 [] rfl).2.1]
    rfl
  · exact (sequence_allocator_gapless "1970-W01" 3 [] rfl).2.2.2.2
      ⟨[], [], []⟩ 1 "u" 1 [⟨some "Gold Ship", some "Mile", none, 5, none⟩]
      ⟨4, 10⟩ "1970-W01-EVT-001"
      ⟨[⟨"1970-W01-EVT-001", 1, 1, "u", 4, "1970-W01", "pending_validation"⟩],
       [⟨"1970-W01-EVT-001", "Gold Ship", none, "Mile", 5⟩],
       [("1970-W01", 1)]⟩
      rfl

/-- Claim C2 counterexample: after a run is deleted by a rejection, a
subsequent transition of the same run to approved reports success, True,
not failure. -/
theorem approve_after_delete_reports_success :
    (set_run_status
        (set_run_status
          ⟨[⟨"2025-W46-EVT-001", 1, 1, "u", 0, "2025-W46", "pending_validation"⟩],
            [], []⟩
          "2025-W46-EVT-001" "rejected").2
        "2025-W46-EVT-001" "approved").1 = true ∧
    (set_run_status
        ⟨[⟨"2025-W46-EVT-001", 1, 1, "u", 0, "2025-W46", "pending_validation"⟩],
          [], []⟩
        "2025-W46-EVT-001" "rejected").2.runs = [] := by
  decide

/-- Any filter applied twice filters once. -/
lemma filter_idempotent {α : Type} (p : α → Bool) (l : List α) :
    (l.filter p).filter p = l.filter p := by
  rw [List.filter_filter]
  simp [Bool.and_self]

lemma map_status_idem (l : List RunRow) (eid status : String) :
    (l.map (fun r => if r.event_id == eid then { r with status := status } else r)).map
        (fun r => if r.event_id == eid then { r with status := status } else r)
      = l.map (fun r => if r.event_id == eid then { r with status := status } else r) := by
  rw [List.map_map]
  apply List.map_congr_left
  intro r _
  by_cases h : r.event_id = eid <;> simp [Function.comp_apply, h]

lemma map_status_on_filtered (l : List RunRow) (eid status : String) :
    (l.filter (fun r => !(r.event_id == eid))).map
        (fun r => if r.event_id == eid then { r with status := status } else r)
      = l.filter (fun r => !(r.event_id == eid)) := by
  conv_rhs => rw [← List.map_id (l.filter (fun r => !(r.event_id == eid)))]
  apply List.map_congr_left
  intro r hr
  have hm := (List.mem_filter.mp hr).2
  rw [if_neg]
  · rfl
  · simpa using hm

/-- Claim C2 as amended: set_run_status reports success whether or not a
matching run exists. Repeating the same terminal status yields no error
and no double effect, and transitioning a deleted run to approved also
returns success while changing nothing, so the caller cannot detect the
lost race from the result. -/
theorem set_run_status_idempotent_lenient (st : DBState) (eid : String) :
    set_run_status (set_run_status st eid "rejected").2 eid "rejected"
      = (true, (set_run_status st eid "rejected").2) ∧
    set_run_status (set_run_status st eid "approved").2 eid "approved"
      = (true, (set_run_status st eid "approved").2) ∧
    set_run_status (set_run_status st eid "rejected").2 eid "approved"
      = (true, (set_run_status st eid "rejected").2) := by
  refine ⟨?_, ?_, ?_⟩
  · simp [set_run_status, filter_idempotent]
  · have hne : ¬ ("approved" = "rejected") := by decide
    have h1 : (set_run_status st eid "approved").2
        = { st with runs := st.runs.map (fun r =>
            if r.event_id == eid then { r with status := "approved" } else r) } := by
      simp only [set_run_status, if_neg hne]
    rw [h1]
    simp only [set_run_status, if_neg hne]
    rw [map_status_idem]
  · have hne : ¬ ("approved" = "rejected") := by decide
    have h1 : (set_run_status st eid "rejected").2
        = { st with runs := st.runs.filter (fun r => !(r.event_id == eid)),
                    scores := st.scores.filter (fun s => !(s.event_id == eid)) } :=
      rfl
    rw [h1]
    simp only [set_run_status, if_neg hne]
    rw [map_status_on_filtered]

/-- Claim C9: an update_single_score call whose (run id, original name)
pair matches zero score rows returns failure as a result, False, and
leaves every row unchanged. -/
theorem update_score_not_found (st : DBState) (eid oname nname : String)
    (nepi : Option String) (nteam : String) (nscore : Int)
    (h : ∀ s ∈ st.scores, ¬ (s.event_id = eid ∧ s.uma_name = oname)) :
    update_single_score st eid oname nname nepi nteam nscore = (false, st) := by
  simp only [update_single_score]
  have hcount : st.scores.countP
      (fun s => s.event_id == eid && s.uma_name == oname) = 0 := by
    rw [List.countP_eq_zero]
    intro s hs
    have hns := h s hs
    simp only [Bool.and_eq_true, beq_iff_eq]
    exact fun hc => hns ⟨hc.1, hc.2⟩
  have hmap : st.scores.map (fun s =>
      if s.event_id == eid && s.uma_name == oname then
        { s with uma_name := nname, epithet := nepi, team := nteam,
                 score := nscore }
      else s) = st.scores := by
    conv_rhs => rw [← List.map_id st.scores]
    apply List.map_congr_left
    intro s hs
    have hns := h s hs
    rw [if_neg]
    · rfl
    · simp only [Bool.and_eq_true, beq_iff_eq]
      exact fun hc => hns ⟨hc.1, hc.2⟩
  rw [hcount, hmap]
  rfl

/-- Witness for C9 at a concrete state holding one unrelated score row. -/
theorem update_score_not_found_witness :
    (∀ s ∈ (⟨[], [⟨"E1", "Gold Ship", none, "Mile", 5⟩], []⟩ : DBState).scores,
      ¬ (s.event_id = "E1" ∧ s.uma_name = "Vodka")) ∧
    update_single_score ⟨[], [⟨"E1", "Gold Ship", none, "Mile", 5⟩], []⟩
        "E1" "Vodka" "Daiwa Scarlet" none "Sprint" 9
      = (false, ⟨[], [⟨"E1", "Gold Ship", none, "Mile", 5⟩], []⟩) :=
  ⟨by decide,
   update_score_not_found ⟨[], [⟨"E1", "Gold Ship", none, "Mile", 5⟩], []⟩
     "E1" "Vodka" "Daiwa Scarlet" none "Sprint" 9 (by decide)⟩

/-! ## Run lifecycle controller: trackmaster/ui/views.py and modals.py

The DatabaseManager methods are async coroutine functions, but views.py
and modals.py hand them to asyncio.to_thread. The worker thread then
merely calls the coroutine function, which constructs a coroutine object
without running the method body, and nobody ever awaits that object: the
repository statement never executes, and the awaited result of to_thread
is the coroutine object itself, which Python treats as truthy. The
embedding therefore leaves the database unchanged on these paths and
records each coroutine object so constructed and abandoned. -/

/-- The custom id values of the three buttons of the ValidationView. -/
inductive ButtonId
  | confirm_run
  | edit_run
  | cancel_run
deriving Repr, DecidableEq

/-- The user visible outcome of one dispatched view interaction. The
success messages are sent whenever the truthy un-awaited coroutine
object is taken for a success flag. -/
inductive Reply
  | notAuthor
  | alreadyProcessed
  | approvedSaved
  | cancelledDeleted
  | modalShown
deriving Repr, DecidableEq

/-- A repository coroutine constructed by calling an async
DatabaseManager method inside asyncio.to_thread: it is created but never
awaited, so the statement it stands for never reaches the database. -/
inductive PendingCoroutine
  | setRunStatus (event_id status : String)
deriving Repr, DecidableEq

/-- The session state of one ValidationView: the run it controls, the
submitter id, the has_been_actioned flag, and whether the view stopped
listening (disable_all_buttons or the timeout stopped it). -/
structure View where
  event_id : String
  original_user_id : Int
  has_been_actioned : Bool
  stopped : Bool
deriving Repr, DecidableEq

/-- Result of ValidationView.interaction_check. -/
inductive CheckResult
  | allowed
  | notAuthor
  | alreadyProcessed
deriving Repr, DecidableEq

/-- ValidationView.interaction_check, lines 104 to 119 of
trackmaster/ui/views.py: only the original submitter may click, and a
confirm or cancel click on an actioned view is answered with the
already-processed message; an edit click is exempt from that second
check. -/
def interaction_check (v : View) (user_id : Int) (custom_id : ButtonId) :
    CheckResult :=
  if user_id ≠ v.original_user_id then .notAuthor
  else if v.has_been_actioned = true ∧ custom_id ≠ .edit_run then .alreadyProcessed
  else .allowed

/-- One button interaction dispatched to the ValidationView, processed
atomically: the framework runs interaction_check first, and a failed
check sends its message without running the button callback. The confirm
and cancel callbacks run disable_all_buttons, which sets
has_been_actioned and stops the view, then hand the async set_run_status
to asyncio.to_thread (views.py lines 48 and 82): the call in the worker
thread only constructs a coroutine object, which is never awaited, so
the database is untouched and the truthy object steers execution into
the success branch message. The edit callback only opens the modal. -/
def dispatchInteraction (v : View) (db : DBState) (user_id : Int)
    (custom_id : ButtonId) : View × DBState × Reply × List PendingCoroutine :=
  match interaction_check v user_id custom_id with
  | .notAuthor => (v, db, .notAuthor, [])
  | .alreadyProcessed => (v, db, .alreadyProcessed, [])
  | .allowed =>
    match custom_id with
    | .confirm_run =>
      ({ v with has_been_actioned := true, stopped := true }, db,
       .approvedSaved, [.setRunStatus v.event_id "approved"])
    | .cancel_run =>
      ({ v with has_been_actioned := true, stopped := true }, db,
       .cancelledDeleted, [.setRunStatus v.event_id "rejected"])
    | .edit_run => (v, db, .modalShown, [])

/-- ValidationView.on_timeout, lines 94 to 102 of
trackmaster/ui/views.py: when the view has not been actioned it attempts
the automatic rejection, handing the async set_run_status to
asyncio.to_thread (line 100); the constructed coroutine is never
awaited, so the pending run is not deleted. The has_been_actioned flag
is not modified, and the view stops in either case. -/
def on_timeout (v : View) (db : DBState) :
    View × DBState × List PendingCoroutine :=
  if v.has_been_actioned = false then
    ({ v with stopped := true }, db, [.setRunStatus v.event_id "rejected"])
  else
    ({ v with stopped := true }, db, [])

/-- ScoreEditModal.on_submit from trackmaster/ui/modals.py: the call it
makes omits the required new_epithet parameter of update_single_score,
so binding the arguments raises a TypeError in the worker thread before
any coroutine exists; the await re-raises it, the error is unhandled,
and no update executes on any input. -/
def scoreEditModal_on_submit (_db : DBState) (_event_id _name_to_correct
    _corrected_name _corrected_team : String) (_corrected_score : Int) :
    Except PyError (DBState × Bool) :=
  .error .typeError

/-- A concrete pending run fixture for counterexamples and witnesses. -/
def exampleDB : DBState :=
  ⟨[⟨"R1", 7, 1, "u", 0, "2025-W46", "pending_validation"⟩],
   [⟨"R1", "Gold Ship", none, "Mile", 5⟩], []⟩

/-- The view controlling the fixture run, still awaiting a decision. -/
def exampleView : View := ⟨"R1", 7, false, false⟩

/-! ### Claim theorems about the lifecycle controller -/

/-- Claim C1 counterexample: on a run awaiting decision the timeout
fires and attempts its automatic rejection, but the rejection never
takes effect: the coroutine it constructs is abandoned and the run is
still pending afterwards. The actioned flag also stays unset, so a
confirm arriving next is not rejected with the already-decided signal:
the interaction check allows it and it is answered with the success
message. -/
theorem timeout_then_confirm_not_rejected :
    (on_timeout exampleView exampleDB).2.2
      = [.setRunStatus "R1" "rejected"] ∧
    (on_timeout exampleView exampleDB).2.1 = exampleDB ∧
    (on_timeout exampleView exampleDB).1.has_been_actioned = false ∧
    interaction_check (on_timeout exampleView exampleDB).1 7 .confirm_run
      = .allowed ∧
    (dispatchInteraction (on_timeout exampleView exampleDB).1
        (on_timeout exampleView exampleDB).2.1 7 .confirm_run).2.2.1
      = .approvedSaved := by
  decide

/-- Claim C1 as amended: once a confirm or cancel has been accepted (the
actioned flag is set), every subsequent confirm or cancel attempt is
rejected, with the already-processed signal for the submitter and the
authorization message for anyone else, leaving view, database and
repository untouched; and the timeout attempts its automatic rejection
only when no confirm or cancel has been accepted. However, no terminal
transition ever reaches the repository, because the async set_run_status
handed to asyncio.to_thread is never awaited: the accepted confirm or
cancel writes nothing, the timeout deletes nothing, and the timeout also
leaves the actioned flag unset, so a confirm or cancel arriving after a
timeout passes the check instead of being told already-decided, as the
counterexample shows. -/
theorem terminal_transition_guard (v : View) (db : DBState) (uid : Int)
    (cid : ButtonId) :
    (v.has_been_actioned = true → cid ≠ .edit_run →
      dispatchInteraction v db uid cid
        = (v, db,
           (if uid = v.original_user_id then .alreadyProcessed else .notAuthor),
           [])) ∧
    (v.has_been_actioned = true →
      on_timeout v db = ({ v with stopped := true }, db, [])) ∧
    (v.has_been_actioned = false →
      dispatchInteraction v db v.original_user_id .confirm_run
        = ({ v with has_been_actioned := true, stopped := true }, db,
           .approvedSaved, [.setRunStatus v.event_id "approved"]) ∧
      dispatchInteraction v db v.original_user_id .cancel_run
        = ({ v with has_been_actioned := true, stopped := true }, db,
           .cancelledDeleted, [.setRunStatus v.event_id "rejected"])) ∧
    (v.has_been_actioned = false →
      on_timeout v db
        = ({ v with stopped := true }, db,
           [.setRunStatus v.event_id "rejected"]) ∧
      (on_timeout v db).1.has_been_actioned = false) := by
  refine ⟨?_, ?_, ?_, ?_⟩
  · intro hact hcid
    by_cases hu : uid = v.original_user_id
    · simp [dispatchInteraction, interaction_check, hu, hact, hcid]
    · simp [dispatchInteraction, interaction_check, hu]
  · intro hact
    simp [on_timeout, hact]
  · intro hact
    constructor <;> simp [dispatchInteraction, interaction_check, hact]
  · intro hact
    constructor
    · simp [on_timeout, hact]
    · simp [on_timeout, hact]

/-- Witness for the amended C1 at a concrete actioned view. -/
theorem terminal_transition_guard_witness :
    (⟨"R1", 7, true, true⟩ : View).has_been_actioned = true ∧
    dispatchInteraction ⟨"R1", 7, true, true⟩ exampleDB 7 .cancel_run
      = (⟨"R1", 7, true, true⟩, exampleDB, .alreadyProcessed, []) ∧
    on_timeout ⟨"R1", 7, true, true⟩ exampleDB
      = (⟨"R1", 7, true, true⟩, exampleDB, []) := by
  refine ⟨rfl, ?_, ?_⟩
  · have h := (terminal_transition_guard ⟨"R1", 7, true, true⟩ exampleDB 7
      .cancel_run).1 rfl (by decide)
    simpa using h
  · have h := (terminal_transition_guard ⟨"R1", 7, true, true⟩ exampleDB 7
      .cancel_run).2.1 rfl
    simpa using h

/-- Claim C10: the already-decided guard does exempt editing, exactly as
claimed: with the actioned flag set, an edit interaction by the original
submitter passes interaction_check and opens the edit modal, while
confirm and cancel interactions are blocked with the already-processed
message. But the invocation the modal then makes is broken in the
source: its update_single_score call omits the required new_epithet
argument, so every submission raises a TypeError and the single-score
update never executes. -/
theorem edit_exempt_from_guard (v : View) (db : DBState) (cid : ButtonId) :
    v.has_been_actioned = true →
    (interaction_check v v.original_user_id .edit_run = .allowed ∧
      dispatchInteraction v db v.original_user_id .edit_run
        = (v, db, .modalShown, [])) ∧
    ((cid = .confirm_run ∨ cid = .cancel_run) →
      interaction_check v v.original_user_id cid = .alreadyProcessed ∧
      dispatchInteraction v db v.original_user_id cid
        = (v, db, .alreadyProcessed, [])) ∧
    (∀ eid oname nname nteam nscore,
      scoreEditModal_on_submit db eid oname nname nteam nscore
        = .error .typeError) := by
  intro hact
  refine ⟨?_, ?_, ?_⟩
  · constructor <;> simp [interaction_check, dispatchInteraction]
  · rintro (rfl | rfl) <;>
      refine ⟨?_, ?_⟩ <;>
      simp [interaction_check, dispatchInteraction, hact]
  · intro eid oname nname nteam nscore
    rfl

/-- Witness for C10 at a concrete actioned view and the concrete failing
submission. -/
theorem edit_exempt_from_guard_witness :
    (⟨"R1", 7, true, true⟩ : View).has_been_actioned = true ∧
    interaction_check ⟨"R1", 7, true, true⟩ 7 .edit_run = .allowed ∧
    interaction_check ⟨"R1", 7, true, true⟩ 7 .confirm_run = .alreadyProcessed ∧
    scoreEditModal_on_submit exampleDB "R1" "Gold Ship" "Vodka" "Sprint" 9
      = .error .typeError := by
  refine ⟨rfl, ?_, ?_, ?_⟩
  · exact ((edit_exempt_from_guard ⟨"R1", 7, true, true⟩ exampleDB
      .confirm_run) rfl).1.1
  · exact (((edit_exempt_from_guard ⟨"R1", 7, true, true⟩ exampleDB
      .confirm_run) rfl).2.1 (Or.inl rfl)).1
  · exact ((edit_exempt_from_guard ⟨"R1", 7, true, true⟩ exampleDB
      .confirm_run) rfl).2.2 "R1" "Gold Ship" "Vodka" "Sprint" 9

end Trackmaster
